import Mathlib

/-!
Shallow embedding of the access-control and path-validation core of the
filesystem MCP server (files `src/utils/path-utils`, `src/utils/path-validation`,
`src/lib/validation`, `src/roots/roots-utils`, `src/handlers/index`).

Modelling decisions, applied uniformly:
* JavaScript strings are Lean `String`s; all character-level work happens on
  `String.data : List Char` so every definition reduces by `rfl`/`decide`.
* The host platform is fixed to POSIX (`process.platform !== 'win32'`,
  `path.sep = '/'`); the branches of the source that are conditional on
  `process.platform === 'win32'` are therefore inert and noted in comments.
* `process.cwd()` is a parameter `cwd`, assumed absolute where the source
  relies on it (Node guarantees `process.cwd()` is absolute).
* The filesystem is a parameter: `fs.realpath` becomes an explicit function
  `String → RealpathResult`; `validatePath` additionally returns the list of
  arguments it passed to `fs.realpath`, in call order, so that "no filesystem
  call is issued" is expressible as an empty trace.
-/

namespace FsMcp

/-- Apostrophe character (named to keep character-class definitions readable). -/
def quoteCh1 : Char := Char.ofNat 39

/-- Double-quote character. -/
def quoteCh2 : Char := Char.ofNat 34

/-- Backslash character. -/
def bsCh : Char := Char.ofNat 92

/-- NUL character. -/
def nulCh : Char := Char.ofNat 0

/-- Whitespace as removed by JavaScript `String.prototype.trim`: the
ECMAScript WhiteSpace and LineTerminator code points - TAB through CR
(U+0009-U+000D), SPACE, NBSP (U+00A0), OGHAM SPACE MARK (U+1680), the
U+2000-U+200A spaces, LINE/PARAGRAPH SEPARATOR (U+2028, U+2029), NARROW
NBSP (U+202F), MATHEMATICAL SPACE (U+205F), IDEOGRAPHIC SPACE (U+3000),
and ZWNBSP (U+FEFF). -/
def isSpaceCh (c : Char) : Bool :=
  c = ' ' || (9 ≤ c.toNat && c.toNat ≤ 13) || c.toNat = 160 || c.toNat = 5760 ||
  (8192 ≤ c.toNat && c.toNat ≤ 8202) || c.toNat = 8232 || c.toNat = 8233 ||
  c.toNat = 8239 || c.toNat = 8287 || c.toNat = 12288 || c.toNat = 65279

/-- Single or double quote, as matched by the regex class in `normalizePath`. -/
def isQuoteCh (c : Char) : Bool := c = quoteCh1 || c = quoteCh2

/-- JavaScript `p.trim()` on the character list. -/
def jsTrimList (l : List Char) : List Char :=
  ((l.dropWhile isSpaceCh).reverse.dropWhile isSpaceCh).reverse

/-- Drop one leading quote character, if present. -/
def dropLeadQuote : List Char → List Char
  | [] => []
  | c :: r => if isQuoteCh c then r else c :: r

/-- JavaScript `p.replace(/^[quote]|[quote]$/g, '')`: remove at most one leading
and one trailing quote character. -/
def stripQuotesList (l : List Char) : List Char :=
  (dropLeadQuote ((dropLeadQuote l).reverse)).reverse

/-- JavaScript `p.replace(/\/+/g, '/')`: collapse each run of slashes to one. -/
def collapseSlashes : List Char → List Char
  | [] => []
  | [c] => [c]
  | a :: b :: r =>
    if a = '/' ∧ b = '/' then collapseSlashes (b :: r)
    else a :: collapseSlashes (b :: r)

/-- JavaScript `p.replace(/\/+$/, '')`: remove the trailing run of slashes. -/
def stripTrailingSlashes (l : List Char) : List Char :=
  (l.reverse.dropWhile (fun c => c = '/')).reverse

/-- Split on `'/'`, keeping empty segments (matching the segment scan of
Node's `normalizeString`). -/
def splitSlashAux (acc : List Char) : List Char → List (List Char)
  | [] => [acc.reverse]
  | c :: r => if c = '/' then acc.reverse :: splitSlashAux [] r else splitSlashAux (c :: acc) r

/-- Split a character list on `'/'`. -/
def splitSlash (l : List Char) : List (List Char) := splitSlashAux [] l

/-- One step of Node's `normalizeString` segment processing. The stack holds
the output segments most-recent-first. `allowAbove` is `allowAboveRoot`. -/
def pushSeg (allowAbove : Bool) (stack : List (List Char)) (seg : List Char) : List (List Char) :=
  if seg = [] ∨ seg = ['.'] then stack
  else if seg = ['.', '.'] then
    match stack with
    | [] => if allowAbove then [seg] else []
    | top :: rest => if top = ['.', '.'] then (if allowAbove then seg :: top :: rest else top :: rest) else rest
  else seg :: stack

/-- Join segments with `'/'`. -/
def joinSegs : List (List Char) → List Char
  | [] => []
  | [s] => s
  | s :: r => s ++ '/' :: joinSegs r

/-- Node `normalizeString(path, allowAboveRoot, '/')`. -/
def normalizeString (allowAbove : Bool) (l : List Char) : List Char :=
  joinSegs (((splitSlash l).foldl (pushSeg allowAbove) []).reverse)

/-- Node `path.posix.normalize`. -/
def nodeNormalizeList (l : List Char) : List Char :=
  if l = [] then ['.']
  else
    let abs : Bool := decide (l.head? = some '/')
    let trail : Bool := decide (l.getLast? = some '/')
    let r := normalizeString (!abs) l
    if r = [] then
      if abs then ['/'] else if trail then ['.', '/'] else ['.']
    else
      let r := if trail then r ++ ['/'] else r
      if abs then '/' :: r else r

/-- Final step of Node `path.posix.resolve` once the joined path is known to be
absolute (true whenever `process.cwd()` is absolute). -/
def finishResolve (l : List Char) : List Char :=
  let r := normalizeString false l
  if r = [] then ['/'] else '/' :: r

/-- Node `path.posix.resolve(p)` (equivalently `path.resolve(cwd, p)`): `p` if
absolute, otherwise joined onto the absolute working directory `cwd`. -/
def nodeResolveList (cwd p : List Char) : List Char :=
  finishResolve (if p.head? = some '/' then p else if p = [] then cwd else cwd ++ '/' :: p)

/-- Node `path.posix.isAbsolute`. -/
def nodeIsAbsolute (s : String) : Bool := decide (s.data.head? = some '/')

/-- Scan of Node `path.posix.dirname`: walk the reversed character list with the
original index (the loop examines indices `len-1` down to `1` only), skipping
the trailing run of slashes, then the final segment, returning the cut index. -/
def dnScan : List Char → Nat → Bool → Option Nat
  | [], _, _ => none
  | c :: r, i, matched =>
    if i = 0 then none
    else if c = '/' then (if matched then dnScan r (i - 1) matched else some i)
    else dnScan r (i - 1) false

/-- Node `path.posix.dirname`. -/
def nodeDirname (p : String) : String :=
  let l := p.data
  if l = [] then "."
  else
    let hasRoot : Bool := decide (l.head? = some '/')
    match dnScan l.reverse (l.length - 1) true with
    | none => if hasRoot then "/" else "."
    | some e => if hasRoot ∧ e = 1 then "//" else String.mk (l.take e)

/-- Does the string match the regex `^[a-zA-Z]:`? -/
def isDriveStart : List Char → Bool
  | a :: b :: _ => a.isAlpha && b = ':'
  | _ => false

/-- JavaScript `p.replace(/\//g, backslash)`. -/
def slashToBs (l : List Char) : List Char :=
  l.map (fun c => if c = '/' then bsCh else c)

/-- `convertToWindowsPath` from `src/utils/path-utils`. Platform fixed to
POSIX, so the branch guarded by `process.platform === 'win32'` is inert; the
leading `/mnt/` branch returns its input unchanged like the final fallback. -/
def convertToWindowsPath (l : List Char) : List Char :=
  if List.isPrefixOf "/mnt/".data l then l
  else if isDriveStart l then slashToBs l
  else l

/-- JavaScript `s.replace(/bs bs/g, bs)`: each pair of backslashes becomes one,
scanning left to right. -/
def collapsePairsBs : List Char → List Char
  | [] => []
  | [c] => [c]
  | a :: b :: r =>
    if a = bsCh ∧ b = bsCh then bsCh :: collapsePairsBs r
    else a :: collapsePairsBs (b :: r)

/-- JavaScript `p.replace(/^bs{2,}/, bs bs)`: a leading run of two or more
backslashes becomes exactly two. -/
def collapseLeadingBs (l : List Char) : List Char :=
  match l with
  | a :: b :: r =>
    if a = bsCh ∧ b = bsCh then bsCh :: bsCh :: (r.dropWhile (fun c => c = bsCh))
    else a :: b :: r
  | x => x

/-- Uppercase a leading lowercase drive letter (`result.charAt(0).toUpperCase()`
applied when `/^[a-z]:/` matches; the follow-up `:` is guaranteed here). -/
def upcaseDrive : List Char → List Char
  | a :: r => (if a.isLower then a.toUpper else a) :: r
  | [] => []

/-- Body of `normalizePath` from `src/utils/path-utils`, applied after the
trim/quote-strip step. On a POSIX host `isUnixPath` reduces to "starts with
`/`" (the `process.platform !== 'win32'` disjunct is true), and the final
`process.platform === 'win32'` separator rewrite does not fire. -/
def normalizePathCore (q : List Char) : List Char :=
  if q.head? = some '/' then
    if stripTrailingSlashes (collapseSlashes q) = [] then ['/']
    else stripTrailingSlashes (collapseSlashes q)
  else
    let p1 := convertToWindowsPath q
    let p2 :=
      if p1.head? = some bsCh then
        bsCh :: bsCh :: collapsePairsBs ((collapseLeadingBs p1).drop 2)
      else collapsePairsBs p1
    let normalized := nodeNormalizeList p2
    let normalized :=
      if p2.head? = some bsCh ∧ ¬ normalized.head? = some bsCh then bsCh :: normalized
      else normalized
    if isDriveStart normalized then upcaseDrive (slashToBs normalized)
    else normalized

/-- `normalizePath` from `src/utils/path-utils` (POSIX host). -/
def normalizePath (p : String) : String :=
  String.mk (normalizePathCore (stripQuotesList (jsTrimList p.data)))

/-- JavaScript `s.startsWith(pre)`. -/
def jsStartsWith (s pre : String) : Bool := List.isPrefixOf pre.data s.data

/-- JavaScript `s.slice(n)`. -/
def jsSlice (s : String) (n : Nat) : String := String.mk (s.data.drop n)

/-- Join nonempty parts with `'/'` (the accumulation step of `path.posix.join`). -/
def joinWithSlash : List String → List Char
  | [] => []
  | [s] => s.data
  | s :: r => s.data ++ '/' :: joinWithSlash r

/-- Node `path.posix.join(a, b)`: empty arguments are skipped, the joined
string is normalized, and an all-empty join yields `"."`. -/
def nodeJoin (a b : String) : String :=
  match [a, b].filter (fun s => s ≠ "") with
  | [] => "."
  | parts => String.mk (nodeNormalizeList (joinWithSlash parts))

/-- `expandHome` from `src/utils/path-utils`; `homedir` stands for
`os.homedir()`. -/
def expandHome (homedir : String) (filepath : String) : String :=
  if jsStartsWith filepath "~/" || filepath = "~" then nodeJoin homedir (jsSlice filepath 1)
  else filepath

/-- Does the string contain a NUL byte? -/
def hasNul (s : String) : Bool := s.data.contains nulCh

/-- `path.resolve(path.normalize(s))`, the normalization applied to both the
candidate and each allowed directory inside the containment checker. -/
def normForContain (cwd : String) (s : String) : String :=
  String.mk (nodeResolveList cwd.data (nodeNormalizeList s.data))

/-- Per-directory body of the `allowedDirectories.some(...)` callback in
`isPathWithinAllowedDirectories` (`src/utils/path-validation`). The
`typeof dir !== 'string'` guard is vacuous in the model; `path.sep` is `'/'`,
so the Windows bare-drive-root branch (guarded by `path.sep === backslash`)
is inert. A thrown `Error` is modelled as `Except.error`. -/
def containedInDir (cwd normalizedPath : String) (dir : String) : Except String Bool :=
  if dir = "" then .ok false
  else if hasNul dir then .ok false
  else
    let normalizedDir := normForContain cwd dir
    if nodeIsAbsolute normalizedDir = false then
      .error "Allowed directories must be absolute paths after normalization"
    else if normalizedPath = normalizedDir then .ok true
    else if normalizedDir = "/" then .ok (nodeIsAbsolute normalizedPath)
    else .ok (jsStartsWith normalizedPath (normalizedDir ++ "/"))

/-- JavaScript `Array.prototype.some` with a callback that may throw. -/
def someExcept (f : α → Except ε Bool) : List α → Except ε Bool
  | [] => .ok false
  | a :: r =>
    match f a with
    | .error e => .error e
    | .ok true => .ok true
    | .ok false => someExcept f r

/-- `isPathWithinAllowedDirectories` from `src/utils/path-validation`. The
`typeof absolutePath !== 'string'` and `Array.isArray` guards are vacuous in
the model; the `try`/`catch` around `path.resolve(path.normalize(...))` never
fires on string inputs. -/
def isPathWithinAllowedDirectories (cwd : String) (absolutePath : String)
    (allowedDirectories : List String) : Except String Bool :=
  if absolutePath = "" ∨ allowedDirectories = [] then .ok false
  else if hasNul absolutePath then .ok false
  else
    let normalizedPath := normForContain cwd absolutePath
    if nodeIsAbsolute normalizedPath = false then
      .error "Path must be absolute after normalization"
    else someExcept (containedInDir cwd normalizedPath) allowedDirectories

/-- Result of one `fs.realpath` call: success, `ENOENT`, or another error. -/
inductive RealpathResult where
  | ok (p : String)
  | enoent
  | err (msg : String)
deriving DecidableEq, Repr

/-- The filesystem as seen by `validatePath`: just the `fs.realpath` map. -/
structure FsModel where
  realpathFn : String → RealpathResult

/-- Failure outcomes of `validatePath`, one constructor per distinct `throw`
reachable by the caller. -/
inductive VError where
  | accessDeniedOutside (p : String)
  | accessDeniedSymlink (p : String)
  | parentMissing (parent : String)
  | progError (msg : String)
  | ioError (msg : String)
deriving DecidableEq, Repr

/-- The `absolute` value computed on lines 18-21 of `src/lib/validation`:
home expansion followed by `path.resolve`. The source distinguishes
`path.resolve(expandedPath)` from `path.resolve(process.cwd(), expandedPath)`
by `path.isAbsolute`, but the two coincide because `resolve` consults `cwd`
only when its last argument is not absolute. -/
def vpAbsolute (cwd homedir requestedPath : String) : String :=
  String.mk (nodeResolveList cwd.data (expandHome homedir requestedPath).data)

/-- `validatePath` from `src/lib/validation`. Returns the outcome together
with the trace of `fs.realpath` arguments, in call order.

Two throws are intercepted by the source's own `catch` blocks:
* the symlink AccessDenied thrown inside the outer `try` is caught, found not
  to carry `code === 'ENOENT'`, and re-thrown unchanged;
* the parent AccessDenied thrown inside the inner `try` (and any error the
  inner containment check itself throws) is caught by the bare inner `catch`
  and replaced by the `parentMissing` error, so the `.ok false` and `.error`
  cases of the inner containment check collapse into `parentMissing`. -/
def validatePath (fs : FsModel) (cwd homedir : String) (allowed : List String)
    (requestedPath : String) : Except VError String × List String :=
  let absolute := vpAbsolute cwd homedir requestedPath
  match isPathWithinAllowedDirectories cwd (normalizePath absolute) allowed with
  | .error m => (.error (.progError m), [])
  | .ok false => (.error (.accessDeniedOutside absolute), [])
  | .ok true =>
    match fs.realpathFn absolute with
    | .ok realPath =>
      match isPathWithinAllowedDirectories cwd (normalizePath realPath) allowed with
      | .error m => (.error (.progError m), [absolute])
      | .ok false => (.error (.accessDeniedSymlink realPath), [absolute])
      | .ok true => (.ok realPath, [absolute])
    | .enoent =>
      let parentDir := nodeDirname absolute
      match fs.realpathFn parentDir with
      | .ok realParentPath =>
        match isPathWithinAllowedDirectories cwd (normalizePath realParentPath) allowed with
        | .ok true => (.ok absolute, [absolute, parentDir])
        | _ => (.error (.parentMissing parentDir), [absolute, parentDir])
      | _ => (.error (.parentMissing parentDir), [absolute, parentDir])
    | .err m => (.error (.ioError m), [absolute])

/-- Environment of the root reconciler: `fs.realpath` as a partial map
(`none` = any resolution failure) and `fs.stat(...).isDirectory()` (`none` =
the stat call itself throws). -/
structure RootsEnv where
  realpathFn : String → Option String
  statIsDir : String → Option Bool

/-- `parseRootUri` from `src/roots/roots-utils`: strip a `file://` scheme,
expand `~` (the inline ternary is exactly `expandHome`), make absolute,
resolve symlinks, normalize; any failure inside the `try` yields `null`. -/
def parseRootUri (env : RootsEnv) (cwd homedir uri : String) : Option String :=
  let rawPath := if jsStartsWith uri "file://" then jsSlice uri 7 else uri
  let expandedPath := expandHome homedir rawPath
  let absolutePath := String.mk (nodeResolveList cwd.data expandedPath.data)
  match env.realpathFn absolutePath with
  | some resolvedPath => some (normalizePath resolvedPath)
  | none => none

/-- `getValidRootDirectories` from `src/roots/roots-utils`. Roots are modelled
by their `uri` strings. Returns the accepted directories in input order,
together with the diagnostics logged for skipped entries. -/
def getValidRootDirectories (env : RootsEnv) (cwd homedir : String) :
    List String → List String × List String
  | [] => ([], [])
  | uri :: rest =>
    let tail := getValidRootDirectories env cwd homedir rest
    match parseRootUri env cwd homedir uri with
    | none => (tail.1, ("Skipping invalid path or inaccessible: " ++ uri) :: tail.2)
    | some resolvedPath =>
      match env.statIsDir resolvedPath with
      | some true => (resolvedPath :: tail.1, tail.2)
      | some false => (tail.1, ("Skipping non-directory root: " ++ resolvedPath) :: tail.2)
      | none => (tail.1, ("Skipping invalid directory: " ++ resolvedPath) :: tail.2)

/-- `updateAllowedDirectoriesFromRoots` from `src/handlers/index`: the new
allow-list and whether the "no valid root directories" warning was logged.
With at least one valid directory the store is replaced wholesale
(`allowedDirectories = [...validatedRootDirs]`); otherwise it is untouched. -/
def updateAllowedDirectoriesFromRoots (env : RootsEnv) (cwd homedir : String)
    (requestedRoots : List String) (current : List String) : List String × Bool :=
  let validatedRootDirs := (getValidRootDirectories env cwd homedir requestedRoots).1
  if validatedRootDirs.length > 0 then (validatedRootDirs, false) else (current, true)

/-- Acceptance function of one root specification: the directory it
contributes to the allow-list, if any. -/
def acceptRoot (env : RootsEnv) (cwd homedir : String) (uri : String) : Option String :=
  match parseRootUri env cwd homedir uri with
  | some r => match env.statIsDir r with
    | some true => some r
    | _ => none
  | none => none

/-- The final character of a string, if any, is neither whitespace nor a
quote character. -/
def lastCharBenign (s : String) : Bool :=
  match s.data.getLast? with
  | none => true
  | some c => !(isSpaceCh c) && !(isQuoteCh c)

/-- No two consecutive slashes occur in the list. -/
def noDbl : List Char → Bool
  | a :: b :: r => if a = '/' ∧ b = '/' then false else noDbl (b :: r)
  | _ => true

/-! ### Basic facts about the resolver -/

theorem finishResolve_head (l : List Char) : (finishResolve l).head? = some '/' := by
  unfold finishResolve
  by_cases h : normalizeString false l = [] <;> simp [h]

theorem nodeResolveList_head (cwd p : List Char) :
    (nodeResolveList cwd p).head? = some '/' := by
  unfold nodeResolveList
  exact finishResolve_head _

theorem normForContain_abs (cwd s : String) :
    nodeIsAbsolute (normForContain cwd s) = true := by
  unfold nodeIsAbsolute normForContain
  simp [nodeResolveList_head]

/-! ### Concrete filesystem instances used by the witnesses -/

/-- Filesystem in which no path exists. -/
def fsAllEnoent : FsModel := ⟨fun _ => .enoent⟩

/-- Filesystem in which `/a/f` is a symlink resolving to `/evil/f`. -/
def fsSymlinkOut : FsModel := ⟨fun p => if p = "/a/f" then .ok "/evil/f" else .enoent⟩

/-- Filesystem in which `/safe/d` is a symlink resolving to `/evil` and
nothing else exists. -/
def fsParentOut : FsModel := ⟨fun p => if p = "/safe/d" then .ok "/evil" else .enoent⟩

/-- Filesystem in which `/safe` exists (a plain directory) and nothing below
it does. -/
def fsParentOk : FsModel := ⟨fun p => if p = "/safe" then .ok "/safe" else .enoent⟩

/-! ### Claims C1-C4: `validatePath` -/

/-- Claim C1: if the requested path passes the first containment check and
`fs.realpath` succeeds, then a non-contained real path is rejected with the
symlink AccessDenied error, and a contained real path is returned itself
(the symlink-resolved path, not the literal requested path). -/
theorem validatePath_realpath_containment (fs : FsModel) (cwd homedir : String)
    (allowed : List String) (requestedPath realPath : String)
    (h1 : isPathWithinAllowedDirectories cwd
      (normalizePath (vpAbsolute cwd homedir requestedPath)) allowed = .ok true)
    (h2 : fs.realpathFn (vpAbsolute cwd homedir requestedPath) = .ok realPath) :
    (isPathWithinAllowedDirectories cwd (normalizePath realPath) allowed = .ok false →
      validatePath fs cwd homedir allowed requestedPath =
        (.error (.accessDeniedSymlink realPath), [vpAbsolute cwd homedir requestedPath])) ∧
    (isPathWithinAllowedDirectories cwd (normalizePath realPath) allowed = .ok true →
      validatePath fs cwd homedir allowed requestedPath =
        (.ok realPath, [vpAbsolute cwd homedir requestedPath])) := by
  constructor <;> intro h3 <;> unfold validatePath <;> simp [h1, h2, h3]

theorem validatePath_realpath_containment_witness :
    (validatePath fsSymlinkOut "/" "/h" ["/a"] "/a/f" =
      (.error (.accessDeniedSymlink "/evil/f"), ["/a/f"])) := by
  exact (validatePath_realpath_containment fsSymlinkOut "/" "/h" ["/a"] "/a/f" "/evil/f"
    rfl rfl).1 rfl

/-- Claim C2: a requested path whose home-expanded, absolutized, normalized
form is not contained in the allow-list is rejected with the AccessDenied
error and an empty filesystem trace: no `fs.realpath` (or any other
filesystem) call is issued. -/
theorem validatePath_denies_before_fs (fs : FsModel) (cwd homedir : String)
    (allowed : List String) (requestedPath : String)
    (h : isPathWithinAllowedDirectories cwd
      (normalizePath (vpAbsolute cwd homedir requestedPath)) allowed = .ok false) :
    validatePath fs cwd homedir allowed requestedPath =
      (.error (.accessDeniedOutside (vpAbsolute cwd homedir requestedPath)), []) := by
  unfold validatePath
  simp [h]

theorem validatePath_denies_before_fs_witness :
    validatePath fsAllEnoent "/" "/h" ["/a"] "/b/x" =
      (.error (.accessDeniedOutside "/b/x"), []) := by
  exact validatePath_denies_before_fs fsAllEnoent "/" "/h" ["/a"] "/b/x" rfl

/-- Claim C3 (divergence witness): requested path `/safe/d/file.txt` does not
exist, its parent `/safe/d` resolves to the real path `/evil`, which is
outside the allow-list `["/safe"]` - yet the caller receives the
`parentMissing` ("Parent directory does not exist") failure, not AccessDenied:
the AccessDenied throw for a non-contained parent sits inside the inner `try`
and is swallowed by its own bare `catch`. -/
theorem validatePath_outside_parent_reported_missing :
    validatePath fsParentOut "/" "/h" ["/safe"] "/safe/d/file.txt" =
      (.error (.parentMissing "/safe/d"), ["/safe/d/file.txt", "/safe/d"]) := by
  rfl

/-- Claim C4: a requested path whose target does not exist but whose parent
resolves to a real path contained in the allow-list succeeds, returning the
original absolute (non-symlink-resolved) path of the target. -/
theorem validatePath_new_target_allowed_parent (fs : FsModel) (cwd homedir : String)
    (allowed : List String) (requestedPath realParentPath : String)
    (h1 : isPathWithinAllowedDirectories cwd
      (normalizePath (vpAbsolute cwd homedir requestedPath)) allowed = .ok true)
    (h2 : fs.realpathFn (vpAbsolute cwd homedir requestedPath) = .enoent)
    (h3 : fs.realpathFn (nodeDirname (vpAbsolute cwd homedir requestedPath)) = .ok realParentPath)
    (h4 : isPathWithinAllowedDirectories cwd (normalizePath realParentPath) allowed = .ok true) :
    validatePath fs cwd homedir allowed requestedPath =
      (.ok (vpAbsolute cwd homedir requestedPath),
        [vpAbsolute cwd homedir requestedPath, nodeDirname (vpAbsolute cwd homedir requestedPath)]) := by
  unfold validatePath
  simp [h1, h2, h3, h4]

theorem validatePath_new_target_allowed_parent_witness :
    validatePath fsParentOk "/" "/h" ["/safe"] "/safe/new.txt" =
      (.ok "/safe/new.txt", ["/safe/new.txt", "/safe"]) := by
  exact validatePath_new_target_allowed_parent fsParentOk "/" "/h" ["/safe"] "/safe/new.txt"
    "/safe" rfl rfl rfl rfl

/-! ### Claim C9: root reconciliation -/

/-- Claim C9: reconciliation with zero valid directories leaves the existing
allow-list unchanged and only warns; with at least one valid directory it
replaces the store wholesale with exactly the validated directories (no merge
with `current`). The accepted directories are the `filterMap` of the per-root
acceptance function (each failing root is skipped, the rest proceed), and
every root contributes either a directory or a diagnostic. -/
theorem updateAllowedDirectoriesFromRoots_spec (env : RootsEnv) (cwd homedir : String)
    (requestedRoots current : List String) :
    (updateAllowedDirectoriesFromRoots env cwd homedir requestedRoots current =
      if (getValidRootDirectories env cwd homedir requestedRoots).1 = []
      then (current, true)
      else ((getValidRootDirectories env cwd homedir requestedRoots).1, false)) ∧
    (getValidRootDirectories env cwd homedir requestedRoots).1 =
      requestedRoots.filterMap (acceptRoot env cwd homedir) ∧
    (getValidRootDirectories env cwd homedir requestedRoots).1.length +
      (getValidRootDirectories env cwd homedir requestedRoots).2.length =
      requestedRoots.length := by
  refine ⟨?_, ?_, ?_⟩
  · unfold updateAllowedDirectoriesFromRoots
    cases h : (getValidRootDirectories env cwd homedir requestedRoots).1 with
    | nil => simp [h]
    | cons a t => simp [h]
  · induction requestedRoots with
    | nil => rfl
    | cons u rest ih =>
      unfold getValidRootDirectories acceptRoot
      cases hp : parseRootUri env cwd homedir u with
      | none => simpa [hp] using ih
      | some r =>
        cases hs : env.statIsDir r with
        | none => simpa [hp, hs] using ih
        | some b => cases b <;> simpa [hp, hs] using ih
  · induction requestedRoots with
    | nil => rfl
    | cons u rest ih =>
      unfold getValidRootDirectories
      cases hp : parseRootUri env cwd homedir u with
      | none => simp [hp]; omega
      | some r =>
        cases hs : env.statIsDir r with
        | none => simp [hp, hs]; omega
        | some b => cases b <;> simp [hp, hs] <;> omega

/-! ### Claim C10: home expansion -/

/-- Claim C10: home expansion fires only for an input that is exactly `~` or
begins with `~/`. Every other input starting with `~` is returned unchanged,
is not absolute, and `validatePath` therefore computes its absolute form by
resolving it against the process working directory (never against the home
directory). -/
theorem expandHome_only_bare_tilde (cwd homedir s : String)
    (h1 : jsStartsWith s "~" = true)
    (h2 : jsStartsWith s "~/" = false)
    (h3 : s ≠ "~") :
    expandHome homedir s = s ∧
    nodeIsAbsolute s = false ∧
    vpAbsolute cwd homedir s = String.mk (finishResolve (cwd.data ++ '/' :: s.data)) := by
  have he : expandHome homedir s = s := by
    unfold expandHome
    simp [h2, h3]
  have hhead : s.data.head? = some '~' := by
    unfold jsStartsWith at h1
    cases hd : s.data with
    | nil => rw [hd] at h1; simp [List.isPrefixOf] at h1
    | cons c r =>
      rw [hd] at h1
      rw [show "~".data = ['~'] from rfl] at h1
      simp [List.isPrefixOf] at h1
      subst h1
      rfl
  have hne : s.data ≠ [] := by
    intro hd
    rw [hd] at hhead
    simp at hhead
  have habs : nodeIsAbsolute s = false := by
    unfold nodeIsAbsolute
    rw [hhead]
    decide
  refine ⟨he, habs, ?_⟩
  unfold vpAbsolute
  rw [he]
  unfold nodeResolveList
  rw [hhead]
  simp [hne]

theorem expandHome_only_bare_tilde_witness :
    expandHome "/home/u" "~user/file" = "~user/file" ∧
    nodeIsAbsolute "~user/file" = false ∧
    vpAbsolute "/w" "/home/u" "~user/file" =
      String.mk (finishResolve ("/w".data ++ '/' :: "~user/file".data)) := by
  exact expandHome_only_bare_tilde "/w" "/home/u" "~user/file" rfl rfl (by decide)

/-! ### Claim C6: malformed containment-checker inputs -/

/-- Claim C6 (counterexample): an empty candidate yields the plain `.ok false`
of a normal "not contained" result - the very same value returned for an
ordinary non-contained path - rather than any distinct programming-error
signal. -/
theorem isPathWithin_malformed_cex :
    isPathWithinAllowedDirectories "/" "" ["/a"] = .ok false ∧
    isPathWithinAllowedDirectories "/" "/b" ["/a"] = .ok false := by
  exact ⟨rfl, rfl⟩

/-- Claim C6 (amended): a candidate that is empty or contains a NUL byte is
answered with the normal "not contained" result `.ok false`; only a candidate
that is not absolute after normalization would signal the distinct
programming-error condition. -/
theorem isPathWithin_malformed_plain_false (cwd : String) (absolutePath : String)
    (allowed : List String)
    (h : absolutePath = "" ∨ hasNul absolutePath = true) :
    isPathWithinAllowedDirectories cwd absolutePath allowed = .ok false := by
  unfold isPathWithinAllowedDirectories
  rcases h with h | h
  · simp [h]
  · by_cases he : absolutePath = "" ∨ allowed = []
    · simp [he]
    · simp [he, h]

theorem isPathWithin_malformed_plain_false_witness :
    isPathWithinAllowedDirectories "/" "" ["/a"] = .ok false := by
  exact isPathWithin_malformed_plain_false "/" "" ["/a"] (Or.inl rfl)

/-! ### Claim C5: separator-boundary containment -/

/-- Claim C5: for an allowed directory whose normalized form is not the
filesystem root (the bare-drive-root case is Windows-only and inert on the
POSIX host), a candidate is contained exactly when its normalized form equals
the normalized directory or starts with the normalized directory followed by
the path separator. In particular `/a/b/c` is contained in `["/a/b"]` and the
sibling `/a/bc` is not. -/
theorem isPathWithin_segment_boundary (cwd P D : String)
    (hP : P ≠ "") (hPn : hasNul P = false)
    (hD : D ≠ "") (hDn : hasNul D = false)
    (hroot : normForContain cwd D ≠ "/") :
    isPathWithinAllowedDirectories cwd P [D] = .ok true ↔
      (normForContain cwd P = normForContain cwd D ∨
        jsStartsWith (normForContain cwd P) (normForContain cwd D ++ "/") = true) := by
  by_cases heq : normForContain cwd P = normForContain cwd D
  · simp [isPathWithinAllowedDirectories, someExcept, containedInDir, hP, hPn, hD, hDn,
      normForContain_abs, heq]
  · by_cases hpre : jsStartsWith (normForContain cwd P) (normForContain cwd D ++ "/") = true
    · simp [isPathWithinAllowedDirectories, someExcept, containedInDir, hP, hPn, hD, hDn,
        normForContain_abs, heq, hroot, hpre]
    · simp [isPathWithinAllowedDirectories, someExcept, containedInDir, hP, hPn, hD, hDn,
        normForContain_abs, heq, hroot] at hpre ⊢
      simp [hpre]

theorem isPathWithin_segment_boundary_witness :
    isPathWithinAllowedDirectories "/" "/a/b/c" ["/a/b"] = .ok true ∧
    isPathWithinAllowedDirectories "/" "/a/bc" ["/a/b"] = .ok false := by
  constructor
  · exact (isPathWithin_segment_boundary "/" "/a/b/c" "/a/b" (by decide) rfl (by decide) rfl
      (by decide)).mpr (Or.inr rfl)
  · rfl

/-! ### Lemmas about slash collapsing and trimming, used by claim C8 -/

theorem noDbl_cons (a : Char) (l : List Char) (h : noDbl (a :: l) = true) :
    noDbl l = true := by
  cases l with
  | nil => rfl
  | cons b r =>
    unfold noDbl at h
    by_cases hab : a = '/' ∧ b = '/'
    · simp [hab] at h
    · simpa [hab] using h

theorem collapseSlashes_cons (c : Char) (l : List Char) :
    ∃ t, collapseSlashes (c :: l) = c :: t := by
  induction l generalizing c with
  | nil => exact ⟨[], rfl⟩
  | cons b r ih =>
    by_cases h : c = '/' ∧ b = '/'
    · obtain ⟨t, ht⟩ := ih b
      refine ⟨t, ?_⟩
      unfold collapseSlashes
      rw [if_pos h, ht, h.1, h.2]
    · unfold collapseSlashes
      rw [if_neg h]
      exact ⟨collapseSlashes (b :: r), rfl⟩

theorem collapseSlashes_noDbl (l : List Char) : noDbl (collapseSlashes l) = true := by
  induction l with
  | nil => rfl
  | cons a r ih =>
    cases r with
    | nil => rfl
    | cons b s =>
      by_cases h : a = '/' ∧ b = '/'
      · unfold collapseSlashes
        rw [if_pos h]
        exact ih
      · obtain ⟨t, ht⟩ := collapseSlashes_cons b s
        unfold collapseSlashes
        rw [if_neg h]
        rw [ht]
        unfold noDbl
        rw [if_neg h]
        rw [← ht]
        exact ih

theorem collapseSlashes_of_noDbl (l : List Char) (h : noDbl l = true) :
    collapseSlashes l = l := by
  induction l with
  | nil => rfl
  | cons a r ih =>
    cases r with
    | nil => rfl
    | cons b s =>
      have hab : ¬ (a = '/' ∧ b = '/') := by
        intro hc
        unfold noDbl at h
        simp [hc] at h
      have hr : noDbl (b :: s) = true := noDbl_cons a _ h
      unfold collapseSlashes
      rw [if_neg hab, ih hr]

theorem noDbl_append_left (xs ys : List Char) (h : noDbl (xs ++ ys) = true) :
    noDbl xs = true := by
  induction xs with
  | nil => rfl
  | cons a r ih =>
    cases r with
    | nil => rfl
    | cons b s =>
      simp only [List.cons_append] at h
      have hab : ¬ (a = '/' ∧ b = '/') := by
        intro hc
        unfold noDbl at h
        simp [hc] at h
      have h2 : noDbl ((b :: s) ++ ys) = true := by
        unfold noDbl at h
        simpa [hab, List.cons_append] using h
      unfold noDbl
      rw [if_neg hab]
      exact ih h2

theorem dropWhile_head_false (p : Char → Bool) (l : List Char) (c : Char)
    (h : (l.dropWhile p).head? = some c) : p c = false := by
  induction l with
  | nil => simp [List.dropWhile] at h
  | cons a r ih =>
    rw [List.dropWhile_cons] at h
    by_cases hp : p a = true
    · rw [if_pos hp] at h
      exact ih h
    · rw [if_neg hp] at h
      simp at h
      rw [← h]
      simpa using hp

theorem dropWhile_id_of_head (p : Char → Bool) (l : List Char)
    (h : ∀ c, l.head? = some c → p c = false) : l.dropWhile p = l := by
  cases l with
  | nil => rfl
  | cons a r =>
    rw [List.dropWhile_cons, if_neg]
    simp [h a rfl]

theorem stripTrailingSlashes_prfx (l : List Char) :
    ∃ t, stripTrailingSlashes l ++ t = l := by
  unfold stripTrailingSlashes
  refine ⟨(l.reverse.takeWhile (fun c => c = '/')).reverse, ?_⟩
  rw [← List.reverse_append, List.takeWhile_append_dropWhile, List.reverse_reverse]

theorem stripTrailingSlashes_getLast (l : List Char) (c : Char)
    (h : (stripTrailingSlashes l).getLast? = some c) : c ≠ '/' := by
  unfold stripTrailingSlashes at h
  rw [List.getLast?_reverse] at h
  have := dropWhile_head_false _ _ _ h
  simpa using this

theorem stripTrailingSlashes_id (l : List Char)
    (h : ∀ c, l.getLast? = some c → c ≠ '/') : stripTrailingSlashes l = l := by
  unfold stripTrailingSlashes
  rw [dropWhile_id_of_head _ _ ?_, List.reverse_reverse]
  intro c hc
  rw [List.head?_reverse] at hc
  simp [h c hc]

theorem head?_of_append (l t : List Char) (h : l ≠ []) : (l ++ t).head? = l.head? := by
  cases l with
  | nil => exact absurd rfl h
  | cons a r => rfl

theorem jsTrimList_id (l : List Char)
    (h1 : ∀ c, l.head? = some c → isSpaceCh c = false)
    (h2 : ∀ c, l.getLast? = some c → isSpaceCh c = false) :
    jsTrimList l = l := by
  unfold jsTrimList
  rw [dropWhile_id_of_head _ _ h1]
  rw [dropWhile_id_of_head _ _ ?_, List.reverse_reverse]
  intro c hc
  rw [List.head?_reverse] at hc
  exact h2 c hc

theorem dropLeadQuote_id (l : List Char)
    (h : ∀ c, l.head? = some c → isQuoteCh c = false) : dropLeadQuote l = l := by
  cases l with
  | nil => rfl
  | cons a r =>
    show (if isQuoteCh a = true then r else a :: r) = a :: r
    rw [if_neg]
    simp [h a rfl]

theorem stripQuotesList_id (l : List Char)
    (h1 : ∀ c, l.head? = some c → isQuoteCh c = false)
    (h2 : ∀ c, l.getLast? = some c → isQuoteCh c = false) :
    stripQuotesList l = l := by
  unfold stripQuotesList
  rw [dropLeadQuote_id l h1]
  rw [dropLeadQuote_id l.reverse ?_, List.reverse_reverse]
  intro c hc
  rw [List.head?_reverse] at hc
  exact h2 c hc

/-! ### Claim C8: idempotence of `normalizePath` -/

/-- Claim C8 (counterexample): `normalizePath` is not idempotent for every
path string. On `"/a /"` the first pass strips the trailing slash leaving a
trailing space (`"/a "`), and the second pass trims that space away. -/
theorem normalizePath_idem_cex :
    normalizePath (normalizePath "/a /") ≠ normalizePath "/a /" := by
  decide

/-- Claim C8 (amended): `normalizePath` is idempotent for every input whose
trimmed, quote-stripped form starts with `/` and whose normalized result does
not end in a whitespace or quote character (the trim/quote-strip of a second
pass then has nothing left to remove). -/
theorem normalizePath_idem (p : String)
    (h1 : (stripQuotesList (jsTrimList p.data)).head? = some '/')
    (h2 : lastCharBenign (normalizePath p) = true) :
    normalizePath (normalizePath p) = normalizePath p := by
  generalize hq : stripQuotesList (jsTrimList p.data) = q at h1
  have hval : normalizePath p = String.mk (normalizePathCore q) := by
    unfold normalizePath
    rw [hq]
  rw [hval] at h2 ⊢
  have hcq : normalizePathCore q =
      if stripTrailingSlashes (collapseSlashes q) = [] then ['/']
      else stripTrailingSlashes (collapseSlashes q) := by
    unfold normalizePathCore
    rw [if_pos h1]
  by_cases hn : stripTrailingSlashes (collapseSlashes q) = []
  · rw [hcq, if_pos hn]
    decide
  · rw [hcq, if_neg hn] at h2 ⊢
    obtain ⟨qtl, hqtl⟩ : ∃ t, q = '/' :: t := by
      cases q with
      | nil => simp at h1
      | cons a r =>
        simp at h1
        exact ⟨r, by rw [h1]⟩
    obtain ⟨ct, hct⟩ := collapseSlashes_cons '/' qtl
    have hcolq : collapseSlashes q = '/' :: ct := by rw [hqtl, hct]
    obtain ⟨t2, ht2⟩ := stripTrailingSlashes_prfx (collapseSlashes q)
    have hnhead : (stripTrailingSlashes (collapseSlashes q)).head? = some '/' := by
      rw [← head?_of_append _ t2 hn, ht2, hcolq]
      rfl
    have hnodbl : noDbl (stripTrailingSlashes (collapseSlashes q)) = true := by
      apply noDbl_append_left _ t2
      rw [ht2]
      exact collapseSlashes_noDbl q
    have hnlast : ∀ c, (stripTrailingSlashes (collapseSlashes q)).getLast? = some c →
        c ≠ '/' :=
      fun c hc => stripTrailingSlashes_getLast _ c hc
    have hben : ∀ c, (stripTrailingSlashes (collapseSlashes q)).getLast? = some c →
        isSpaceCh c = false ∧ isQuoteCh c = false := by
      intro c hc
      unfold lastCharBenign at h2
      rw [show (String.mk (stripTrailingSlashes (collapseSlashes q))).data =
        stripTrailingSlashes (collapseSlashes q) from rfl] at h2
      rw [hc] at h2
      simpa using h2
    have e1 : jsTrimList (stripTrailingSlashes (collapseSlashes q)) =
        stripTrailingSlashes (collapseSlashes q) := by
      apply jsTrimList_id
      · intro c hc
        rw [hnhead] at hc
        injection hc with hc
        rw [← hc]
        decide
      · exact fun c hc => (hben c hc).1
    have e2 : stripQuotesList (stripTrailingSlashes (collapseSlashes q)) =
        stripTrailingSlashes (collapseSlashes q) := by
      apply stripQuotesList_id
      · intro c hc
        rw [hnhead] at hc
        injection hc with hc
        rw [← hc]
        decide
      · exact fun c hc => (hben c hc).2
    have e3 : collapseSlashes (stripTrailingSlashes (collapseSlashes q)) =
        stripTrailingSlashes (collapseSlashes q) :=
      collapseSlashes_of_noDbl _ hnodbl
    have e4 : stripTrailingSlashes (stripTrailingSlashes (collapseSlashes q)) =
        stripTrailingSlashes (collapseSlashes q) :=
      stripTrailingSlashes_id _ hnlast
    show normalizePath (String.mk (stripTrailingSlashes (collapseSlashes q))) = _
    unfold normalizePath
    rw [show (String.mk (stripTrailingSlashes (collapseSlashes q))).data =
      stripTrailingSlashes (collapseSlashes q) from rfl]
    rw [e1, e2]
    unfold normalizePathCore
    rw [if_pos hnhead, e3, e4, if_neg hn]

theorem normalizePath_idem_witness :
    normalizePath (normalizePath "/a//b/") = normalizePath "/a//b/" := by
  exact normalizePath_idem "/a//b/" rfl rfl

/-! ### Claim C7: empty input normalization -/

/-- Claim C7 (counterexample): the empty string - which is empty after
trimming - normalizes to `"."` (Node `path.normalize("")`), not to `"/"`. -/
theorem normalizePath_empty_cex :
    normalizePath "" = "." ∧ ("." : String) ≠ "/" := by
  constructor
  · rfl
  · decide

/-- Claim C7 (amended): every input that is empty after trimming whitespace
and surrounding quote characters normalizes to `"."` on a POSIX host: the
empty string fails the `startsWith('/')` test, falls through to the
Windows-style branch, and Node `path.normalize("")` returns `"."`. -/
theorem normalizePath_empty_input (p : String)
    (h : stripQuotesList (jsTrimList p.data) = []) :
    normalizePath p = "." := by
  unfold normalizePath
  rw [h]
  rfl

theorem normalizePath_empty_input_witness :
    normalizePath " " = "." := by
  exact normalizePath_empty_input " " rfl

end FsMcp
